import Mathlib

/-!
Verification of the LLASTAKS retrieval-augmented-generation core against its
specification.  The definitions below are shallow embeddings of:

* `004-RAG/faiss-wrap/backend/main.py` — the vector store (upsert / search /
  reset endpoints over a FAISS inner-product index and a parallel metadata
  table);
* `004-RAG/ingest/ingest.py` — the chunker (cleaning, validity filter,
  content-hash deduplication, merge across documents);
* `004-RAG/chatbot-RAG/backend/main.py` — the context assembler (score
  filtering, character-budget packing, message splicing).

Embedding vectors are modelled by an arbitrary type `V`; the embedding model
(`_embed`) and L2 normalisation (`faiss.normalize_L2`) are abstract functions
`emb : String → V` and `nrm : V → V`, matching the spec's external-collaborator
contract (deterministic, order-preserving batch embedding).  FAISS `search` on
an index is likewise an abstract function returning (position, score) pairs;
the backend's defensive position check is modelled exactly.
-/

/-- A row of the store: one `{id, text, metadata}` triple.  Both upsert request
items (`UpsertItem` in the source) and metadata rows of `_meta_df` carry exactly
these fields, so one structure models both.  The open metadata mapping is
modelled as an association list of string pairs; the store treats it as an
opaque payload. -/
structure VecRow where
  id : String
  text : String
  meta : List (String × String)
deriving DecidableEq, Repr

/-- The in-memory state of the faiss-wrap store: the FAISS index (`_index`,
an ordered sequence of vectors) and the metadata table (`_meta_df`, an ordered
sequence of rows). -/
structure StoreState (V : Type) where
  index : List V
  rows : List VecRow
deriving DecidableEq, Repr

/-- The store as created fresh at startup: empty index, empty metadata table. -/
def emptyStore (V : Type) : StoreState V := ⟨[], []⟩

/-- `embs = _embed(texts); faiss.normalize_L2(embs)` — batch embedding followed
by in-place L2 normalisation of every vector. -/
def embedBatch (emb : String → V) (nrm : V → V) (ts : List String) : List V :=
  (ts.map emb).map nrm

/-- Result of the `/upsert` handler.  `total` is `some` of `total_items` when
the response carries that key; the early return for an empty item list
(`return {"upserted": 0}`) carries no total, hence `none`. -/
structure UpsertOut (V : Type) where
  state : StoreState V
  upserted : Nat
  total : Option Nat
deriving DecidableEq, Repr

/-- The `/upsert` handler of `faiss-wrap/backend/main.py` (lines 162–215),
state-passing form, for a ready service.

* empty `items` → early `return {"upserted": 0}` (no mutation, no total);
* otherwise embed and normalise all new texts in one batch;
* if any incoming id already exists (`_meta_df['id'].isin(ids)`), rebuild:
  keep the rows whose id is not being replaced, re-embed and re-normalise
  their texts into a fresh index (or reset to an empty index when nothing
  remains) and drop the replaced rows;
* append the new vectors (`_index.add(embs)`) and the new rows (`pd.concat`);
* return `{"upserted": n, "total_items": len(_meta_df)}`. -/
def pyUpsert (emb : String → V) (nrm : V → V) (st : StoreState V)
    (items : List VecRow) : UpsertOut V :=
  if items.isEmpty then ⟨st, 0, none⟩
  else
    let ids := items.map (fun it => it.id)
    let embs := embedBatch emb nrm (items.map (fun it => it.text))
    let st1 : StoreState V :=
      if st.rows.any (fun r => ids.contains r.id) then
        let remaining := st.rows.filter (fun r => !(ids.contains r.id))
        if remaining.length > 0 then
          ⟨embedBatch emb nrm (remaining.map (fun r => r.text)), remaining⟩
        else
          ⟨[], []⟩
      else st
    let newRows := st1.rows ++ items
    ⟨⟨st1.index ++ embs, newRows⟩, items.length, some newRows.length⟩

/-- The `/reset` handler: fresh empty index of the same dimension and a fresh
empty metadata table. -/
def pyReset (V : Type) (_st : StoreState V) : StoreState V := ⟨[], []⟩

/-- A mutating operation on the store, for stating invariants over operation
sequences. -/
inductive StoreOp where
  | upsert (items : List VecRow)
  | reset
deriving DecidableEq, Repr

/-- Apply one operation to the store state. -/
def applyOp (emb : String → V) (nrm : V → V) (st : StoreState V) :
    StoreOp → StoreState V
  | .upsert items => (pyUpsert emb nrm st items).state
  | .reset => pyReset V st

/-- Apply a sequence of operations, left to right. -/
def applyOps (emb : String → V) (nrm : V → V) (st : StoreState V)
    (ops : List StoreOp) : StoreState V :=
  ops.foldl (applyOp emb nrm) st

/-- Index/metadata alignment: the index holds exactly the normalised embeddings
of the row texts, in row order.  This is the strong form of the spec's core
invariant. -/
def alignedState (emb : String → V) (nrm : V → V) (st : StoreState V) : Prop :=
  st.index = (st.rows.map (fun r => r.text)).map (fun t => nrm (emb t))

/-! ### Python string primitives

`str.strip()` and the chunker's regex cleaning are modelled on character
lists; the whitespace class is the ASCII part of Python's `\s`. -/

/-- Python whitespace class (`\s` over the characters these files produce):
space, tab, newline, carriage return, vertical tab, form feed. -/
def isPyWs (c : Char) : Bool :=
  c == ' ' || c == '\t' || c == '\n' || c == '\r' || c == '\x0B' || c == '\x0C'

/-- The character class of `re.sub(r"[\t\r\f]+", " ", t)`. -/
def isTRF (c : Char) : Bool :=
  c == '\t' || c == '\r' || c == '\x0C'

/-- Replace every maximal run of characters satisfying `p` by a single space —
the effect of `re.sub(r"<class>+", " ", t)`. -/
def squashRuns (p : Char → Bool) : List Char → List Char
  | [] => []
  | [c] => if p c then [' '] else [c]
  | c :: d :: cs =>
    if p c then
      if p d then squashRuns p (d :: cs)
      else ' ' :: squashRuns p (d :: cs)
    else c :: squashRuns p (d :: cs)

/-- Drop leading and trailing whitespace from a character list. -/
def stripEnds (l : List Char) : List Char :=
  ((l.dropWhile isPyWs).reverse.dropWhile isPyWs).reverse

/-- Python `s.strip()`. -/
def pyStrip (s : String) : String := ⟨stripEnds s.data⟩

/-! ### faiss-wrap `/search` -/

/-- `top_k = max(1, min(int(req.top_k), 50))`. -/
def clampTopK (k : Int) : Int := max 1 (min k 50)

/-- One entry of the `/search` response: a metadata row resolved from an index
position, plus its inner-product score (a cosine similarity; scores are
modelled as rationals so that threshold comparisons are decidable). -/
structure SearchHit where
  id : String
  text : String
  meta : List (String × String)
  score : ℚ
deriving DecidableEq, Repr

/-- Result of the `/search` handler: the result list and how many times the
embedding model was invoked during the call. -/
structure SearchOut where
  results : List SearchHit
  embedCalls : Nat
deriving DecidableEq, Repr

/-- The `/search` handler of `faiss-wrap/backend/main.py` (lines 220–262) for a
ready service.  `fs` abstracts `_index.search` on the current vector sequence:
it returns `(position, score)` pairs for the (normalised) query vector and the
clamped `top_k`.

* a query that is empty after `strip()` returns `{"results": []}` before the
  embedder is touched;
* otherwise the stripped query is embedded and normalised (one embedder call);
* an empty index returns `{"results": []}`;
* each returned position is resolved against the metadata rows, defensively
  skipping positions outside `[0, len(_meta_df))`. -/
def pySearch (emb : String → V) (nrm : V → V)
    (fs : List V → V → Int → List (Int × ℚ)) (st : StoreState V)
    (query : String) (topK : Int) : SearchOut :=
  if pyStrip query = "" then ⟨[], 0⟩
  else
    let q := pyStrip query
    let k := clampTopK topK
    let qv := nrm (emb q)
    if st.index.length = 0 then ⟨[], 1⟩
    else
      let hits := fs st.index qv k
      let results := hits.filterMap (fun h =>
        if h.1 < 0 then none
        else (st.rows.get? h.1.toNat).map
          (fun row => SearchHit.mk row.id row.text row.meta h.2))
      ⟨results, 1⟩

/-! ### Service readiness -/

/-- Error taxonomy of the store endpoints as modelled here: the 503
`"Service not ready"` raised while `_model`/`_index`/`_meta_df` are `None`. -/
inductive SvcError where
  | serviceNotReady
deriving DecidableEq, Repr

/-- The `/upsert` endpoint including the readiness check: `svc` is `none`
before the embedder and index are initialised. -/
def pyUpsertEndpoint (emb : String → V) (nrm : V → V)
    (svc : Option (StoreState V)) (items : List VecRow) :
    Except SvcError (UpsertOut V) :=
  match svc with
  | none => .error .serviceNotReady
  | some st => .ok (pyUpsert emb nrm st items)

/-! ### Lock scope of `/upsert`

The handler's observable actions in program order, to state which of them
happen between acquiring and releasing `_lock`. -/

/-- Events of one `/upsert` call, in source order. -/
inductive UpsertEvent where
  | embedNew     -- `_embed(texts)` + `normalize_L2` on the new texts
  | acquire      -- `with _lock:` entry
  | embedKept    -- `_embed(re_texts)` + `normalize_L2` on the kept texts
  | replaceIndex -- `_replace_index(new_index)` (rebuild or reset-to-empty)
  | dropRows     -- `_meta_df.drop(...)`
  | addVectors   -- `_index.add(embs)`
  | appendRows   -- `pd.concat([_meta_df, new_df])`
  | persist      -- `_persist()`
  | release      -- `with _lock:` exit
deriving DecidableEq, Repr

/-- Events of the id-replacement branch, as a function of the current rows and
the incoming ids. -/
def rebuildTrace (st : StoreState V) (ids : List String) : List UpsertEvent :=
  if st.rows.any (fun r => ids.contains r.id) then
    if (st.rows.filter (fun r => !(ids.contains r.id))).length > 0 then
      [.embedKept, .replaceIndex, .dropRows]
    else
      [.replaceIndex, .dropRows]
  else []

/-- The event trace of one `/upsert` call.  An empty item list returns before
embedding or locking, so its trace is empty.  Otherwise the new texts are
embedded, the lock is acquired, the optional rebuild runs, the new vectors and
rows are appended, the state is persisted, and the lock is released. -/
def upsertTrace (st : StoreState V) (items : List VecRow) : List UpsertEvent :=
  if items.isEmpty then []
  else
    [.embedNew, .acquire] ++ rebuildTrace st (items.map (fun it => it.id))
      ++ [.addVectors, .appendRows, .persist, .release]

/-- Every occurrence of `e` in `tr` lies strictly between an `acquire` and a
`release`. -/
def lockedEvt (tr : List UpsertEvent) (e : UpsertEvent) : Bool :=
  (List.range tr.length).all (fun i =>
    !(tr.getD i .release == e)
      || ((tr.take i).contains .acquire && (tr.drop (i + 1)).contains .release))

/-- Every occurrence of `e` in `tr` happens before the lock is acquired: no
`acquire` precedes it and an `acquire` follows it. -/
def beforeLockEvt (tr : List UpsertEvent) (e : UpsertEvent) : Bool :=
  (List.range tr.length).all (fun i =>
    !(tr.getD i .release == e)
      || (!(tr.take i).contains .acquire && (tr.drop (i + 1)).contains .acquire))

/-! ### Chunker (`ingest.py`) -/

/-- `clean_text`: replace non-breaking spaces by regular spaces, collapse runs
of `[\t\r\f]` to one space, collapse all whitespace runs to one space, strip. -/
def cleanText (t : String) : String :=
  ⟨stripEnds (squashRuns isPyWs (squashRuns isTRF
      (t.data.map (fun c => if c = '\u00A0' then ' ' else c))))⟩

/-- `valid_chunk`: keep a cleaned chunk iff it has at least 20 characters. -/
def validChunkB (t : String) : Bool := decide (20 ≤ t.length)

/-- Accumulator loop of Python `str.split()`: split on whitespace runs,
discarding empty pieces. -/
def splitWsGo (cur : List Char) : List Char → List (List Char)
  | [] => if cur.isEmpty then [] else [cur.reverse]
  | c :: cs =>
    if isPyWs c then
      if cur.isEmpty then splitWsGo [] cs
      else cur.reverse :: splitWsGo [] cs
    else splitWsGo (c :: cur) cs

/-- `len(cleaned.split())` — the whitespace-split word count used as a rough
token-count proxy. -/
def wordCount (s : String) : Nat := (splitWsGo [] s.data).length

/-- `f"{idx:04d}"` for a natural number. -/
def pad4 (n : Nat) : String :=
  let s := toString n
  if s.length < 4 then String.mk (List.replicate (4 - s.length) '0') ++ s else s

/-- A chunk record produced by `make_chunks`: id, cleaned text, provenance
metadata, content hash (`_row_hash`) and token-count estimate
(`_token_count`). -/
structure Chunk where
  id : String
  text : String
  docId : String
  sourceUri : String
  page : Nat
  lang : String
  rowHash : String
  tokenCount : Nat
deriving DecidableEq, Repr

/-- The page loop of `make_chunks` (before deduplication): clean each page,
drop invalid chunks, and build the chunk record for 1-based page index `idx`.
`hash` abstracts `sha256_hex`. -/
def rawChunksGo (hash : String → String) (docId srcUri : String) :
    Nat → List String → List Chunk
  | _, [] => []
  | idx, p :: ps =>
    let cleaned := cleanText p
    if validChunkB cleaned then
      ⟨docId ++ "#page-" ++ pad4 idx, cleaned, docId,
        srcUri ++ "#page=" ++ toString idx, idx, "fr",
        hash cleaned, wordCount cleaned⟩
        :: rawChunksGo hash docId srcUri (idx + 1) ps
    else rawChunksGo hash docId srcUri (idx + 1) ps

/-- All candidate chunks of one document, pages enumerated from 1. -/
def rawChunks (hash : String → String) (docId srcUri : String)
    (pages : List String) : List Chunk :=
  rawChunksGo hash docId srcUri 1 pages

/-- The dedup loop of `make_chunks`: drop a chunk whose `_row_hash` is already
in `seen`, keeping the first occurrence. -/
def dedupeGo (seen : List String) : List Chunk → List Chunk
  | [] => []
  | c :: cs =>
    if seen.contains c.rowHash then dedupeGo seen cs
    else c :: dedupeGo (c.rowHash :: seen) cs

/-- `make_chunks`: build all chunks for one document, then dedupe by content
hash keeping the first occurrence. -/
def makeChunks (hash : String → String) (docId srcUri : String)
    (pages : List String) : List Chunk :=
  dedupeGo [] (rawChunks hash docId srcUri pages)

/-- The ingestion run of `ingest.py::main`: each document is chunked (and
deduplicated) independently and the per-document chunk lists are merged into
`all_chunks`, which is then upserted batch by batch.  A document is the triple
(doc id, source uri, page texts). -/
def ingestAllChunks (hash : String → String)
    (docs : List (String × String × List String)) : List Chunk :=
  (docs.map (fun d => makeChunks hash d.1 d.2.1 d.2.2)).flatten

/-- Same-key dedup loop on bare keys, for relating `dedupeGo` to its
first-occurrence specification. -/
def dedupKeysGo (seen : List String) : List String → List String
  | [] => []
  | k :: ks =>
    if seen.contains k then dedupKeysGo seen ks
    else k :: dedupKeysGo (k :: seen) ks

/-- Specification of first-occurrence deduplication: keep each element the
first time it appears and delete all its later duplicates. -/
def nubFirst : List String → List String
  | [] => []
  | t :: ts => t :: nubFirst (ts.filter (fun u => !(u == t)))
termination_by l => l.length
decreasing_by
  simp only [List.length_cons]
  exact Nat.lt_succ_of_le (List.length_filter_le _ _)

/-! ### Context assembler (`chatbot-RAG/backend/main.py`) -/

/-- The metadata keys `build_context_block` reads from a search result. -/
structure RagMeta where
  source : Option String
  file : Option String
  s3Key : Option String
  page : Option Int
deriving DecidableEq, Repr

/-- `{}` — a metadata dict carrying none of the recognised keys. -/
def emptyRagMeta : RagMeta := ⟨none, none, none, none⟩

/-- A search result as consumed by the assembler: each field may be absent
(`r.get(...)`). -/
structure RagResult where
  text : Option String
  meta : Option RagMeta
  score : Option ℚ
deriving DecidableEq, Repr

/-- `r.get("score", 0)`. -/
def scoreD (r : RagResult) : ℚ := r.score.getD 0

/-- The similarity filter of `retrieve_context` (line 217): keep results whose
score is at least the configured minimum. -/
def filterByScore (minScore : ℚ) (results : List RagResult) : List RagResult :=
  results.filter (fun r => decide (minScore ≤ scoreD r))

/-- Python `a or b` for optional strings: an absent or empty value falls
through. -/
def orElseFalsy (a b : Option String) : Option String :=
  match a with
  | some s => if s = "" then b else some s
  | none => b

/-- `meta.get("source") or meta.get("file") or meta.get("s3_key") or
"unknown"`. -/
def sourceLabel (m : RagMeta) : String :=
  match orElseFalsy m.source (orElseFalsy m.file m.s3Key) with
  | some s => s
  | none => "unknown"

/-- The fixed first line of the context block. -/
def instrLine : String :=
  "You have access to the following context passages. Cite them when relevant.\n"

/-- The rendered snippet of the `i`-th result (1-based): header line with
source label and optional page, then the stripped text, then a newline. -/
def renderSnippet (i : Nat) (r : RagResult) : String :=
  let text := pyStrip (r.text.getD "")
  let m := r.meta.getD emptyRagMeta
  let header := "[" ++ toString i ++ "] Source: " ++ sourceLabel m
    ++ (match m.page with
        | some p => " p." ++ toString p
        | none => "")
  header ++ "\n" ++ text ++ "\n"

/-- The packing loop of `build_context_block`: starting at result number `i`
with `running` characters already accumulated, keep appending snippets while
the running count stays within `limit`; the first snippet that would overflow
stops the loop, dropping it and everything after it. -/
def packSnippets (limit : Int) : Nat → Nat → List RagResult → List String
  | _, _, [] => []
  | i, running, r :: rs =>
    let snippet := renderSnippet i r
    if ((running + snippet.length : Nat) : Int) > limit then []
    else snippet :: packSnippets limit (i + 1) (running + snippet.length) rs

/-- All snippets rendered from a result list, numbering from `i` — the
sequence the packing loop selects a prefix of. -/
def snippetsFrom (i : Nat) : List RagResult → List String
  | [] => []
  | r :: rs => renderSnippet i r :: snippetsFrom (i + 1) rs

/-- Total character count of a list of snippets. -/
def sumLens (l : List String) : Nat := (l.map String.length).sum

/-- `build_context_block(results, limit_chars)` (lines 247–279): returns the
assembled block and the number of chunks included.  An empty result list gives
an empty block; otherwise the block is the instruction line and the packed
snippets joined by newlines, stripped. -/
def buildContextBlock (results : List RagResult) (limit : Int) : String × Nat :=
  if results.isEmpty then ("", 0)
  else
    let snips := packSnippets limit 1 0 results
    (pyStrip (String.intercalate "\n" (instrLine :: snips)), snips.length)

/-- Number of chunks `build_context_block` includes. -/
def includedCount (results : List RagResult) (limit : Int) : Nat :=
  (buildContextBlock results limit).2

/-- The results whose snippets the block contains: the packing loop consumes
results in order, so they are the first `includedCount` ones. -/
def includedResults (results : List RagResult) (limit : Int) : List RagResult :=
  results.take (includedCount results limit)

/-- The retrieval-to-context pipeline of `chat_endpoint`: `retrieve_context`
filters by score, then `build_context_block` packs the filtered results. -/
def ragContext (minScore : ℚ) (results : List RagResult) (limit : Int) :
    String × Nat :=
  buildContextBlock (filterByScore minScore results) limit

/-- A chat message. -/
structure ChatMsg where
  role : String
  content : String
deriving DecidableEq, Repr

/-- The instruction preamble prepended to the context block in the injected
system message. -/
def ragPreamble : String :=
  "You are a helpful assistant that uses retrieved context to answer. If the context is not sufficient, say so and proceed cautiously.\n\n"

/-- The system message carrying the context block. -/
def ragSystemMsg (block : String) : ChatMsg :=
  ⟨"system", ragPreamble ++ block⟩

/-- `inject_context_into_messages` (lines 281–303): an empty block returns the
messages unchanged; otherwise the context system message is inserted after a
leading system message if there is one, else prepended. -/
def injectContextIntoMessages (msgs : List ChatMsg) (block : String) :
    List ChatMsg :=
  if block = "" then msgs
  else
    match msgs with
    | [] => [ragSystemMsg block]
    | m0 :: rest =>
      if m0.role = "system" then m0 :: ragSystemMsg block :: rest
      else ragSystemMsg block :: m0 :: rest

theorem upsert_preserves_aligned (emb : String → V) (nrm : V → V)
    (st : StoreState V) (items : List VecRow)
    (h : alignedState emb nrm st) :
    alignedState emb nrm (pyUpsert emb nrm st items).state := by
  unfold pyUpsert
  split
  · exact h
  · unfold alignedState at h ⊢
    dsimp only
    split
    · split
      · simp [embedBatch, List.map_map, Function.comp_def]
      · simp [embedBatch, List.map_map, Function.comp_def]
    · simp [embedBatch, List.map_map, Function.comp_def, h]

theorem reset_preserves_aligned (emb : String → V) (nrm : V → V)
    (st : StoreState V) :
    alignedState emb nrm (pyReset V st) := by
  simp [alignedState, pyReset]

theorem applyOps_aligned (emb : String → V) (nrm : V → V)
    (st : StoreState V) (ops : List StoreOp)
    (h : alignedState emb nrm st) :
    alignedState emb nrm (applyOps emb nrm st ops) := by
  induction ops generalizing st with
  | nil => exact h
  | cons op ops ih =>
    cases op with
    | upsert items =>
      exact ih _ (upsert_preserves_aligned emb nrm st items h)
    | reset =>
      exact ih _ (reset_preserves_aligned emb nrm st)

/-- C1: Alignment invariant — after every sequence of upsert and reset
operations (starting from the fresh empty store), the number of vectors in the
index equals the number of metadata rows, and the vector at every index
position `i` is the L2-normalised embedding of the text of metadata row `i`. -/
theorem store_alignment_invariant (V : Type) (emb : String → V) (nrm : V → V)
    (ops : List StoreOp) :
    (applyOps emb nrm (emptyStore V) ops).index.length
      = (applyOps emb nrm (emptyStore V) ops).rows.length ∧
    ∀ i : Nat,
      (applyOps emb nrm (emptyStore V) ops).index[i]?
        = ((applyOps emb nrm (emptyStore V) ops).rows[i]?).map
            (fun r => nrm (emb r.text)) := by
  have h0 : alignedState emb nrm (emptyStore V) := by
    simp [alignedState, emptyStore]
  have h := applyOps_aligned emb nrm (emptyStore V) ops h0
  unfold alignedState at h
  constructor
  · rw [h]; simp
  · intro i
    rw [h, List.getElem?_map, List.getElem?_map, Option.map_map]
    rfl

/-! ### Helper lemmas about `/upsert` and `/search` -/

theorem pyUpsert_rows (emb : String → V) (nrm : V → V) (st : StoreState V)
    (items : List VecRow) (h : items ≠ []) :
    (pyUpsert emb nrm st items).state.rows
      = st.rows.filter
          (fun r => !((items.map (fun it => it.id)).contains r.id)) ++ items := by
  unfold pyUpsert
  rw [if_neg (by simp [h])]
  dsimp only
  split
  · split
    · rfl
    · rename_i hlen
      have hz : (st.rows.filter
          (fun r => !((items.map (fun it => it.id)).contains r.id))) = [] := by
        have := Nat.eq_zero_of_not_pos hlen
        exact List.length_eq_zero.mp this
      rw [hz]
  · rename_i hany
    have hall : ∀ r ∈ st.rows,
        ((items.map (fun it => it.id)).contains r.id) = false := by
      intro r hr
      have h1 := Bool.eq_false_iff.mpr hany
      have h2 := List.any_eq_false.mp h1 r hr
      exact Bool.eq_false_iff.mpr h2
    rw [List.filter_eq_self.mpr (fun r hr => by rw [hall r hr]; rfl)]

theorem pySearch_hit_origin (emb : String → V) (nrm : V → V)
    (fs : List V → V → Int → List (Int × ℚ)) (st : StoreState V)
    (query : String) (topK : Int) :
    ∀ hit ∈ (pySearch emb nrm fs st query topK).results,
      ∃ r ∈ st.rows, hit.id = r.id ∧ hit.text = r.text := by
  intro hit hmem
  unfold pySearch at hmem
  split at hmem
  · simp at hmem
  · dsimp only at hmem
    split at hmem
    · simp at hmem
    · simp only at hmem
      obtain ⟨⟨i, s⟩, _, heq⟩ := List.mem_filterMap.mp hmem
      split at heq
      · exact absurd heq (by simp)
      · obtain ⟨row, hrow, hmk⟩ := Option.map_eq_some'.mp heq
        exact ⟨row, List.get?_mem hrow, by rw [← hmk], by rw [← hmk]⟩

theorem contains_singleton_id (x : String) (a : String) :
    (([x] : List String).contains a) = (a == x) := by
  cases h : a == x <;> simp_all [List.contains_cons]

theorem length_filter_split (l : List VecRow) (p : VecRow → Bool) :
    l.length = (l.filter p).length + (l.filter (fun r => !(p r))).length := by
  induction l with
  | nil => rfl
  | cons r rs ih =>
    cases h : p r <;> simp [List.filter_cons, h, ih] <;> omega

/-- C2 (amended): for every store state containing exactly one record with id
`x`, upserting a single item with that id leaves the total record count
unchanged, the stored record for `x` reflects the new text and metadata (the
rows with id `x` become exactly the new item), and no search on the resulting
state can return a hit pairing id `x` with any text other than the new one.
The original claim, quantified over arbitrary states, fails on reachable
states holding duplicate rows for `x`; see the counterexample. -/
theorem upsert_replace_by_id (emb : String → V) (nrm : V → V)
    (st : StoreState V) (x newText : String) (m : List (String × String))
    (hone : (st.rows.filter (fun r => r.id == x)).length = 1) :
    ((pyUpsert emb nrm st [⟨x, newText, m⟩]).state.rows.length = st.rows.length)
    ∧ ((pyUpsert emb nrm st [⟨x, newText, m⟩]).state.rows.filter
        (fun r => r.id == x) = [⟨x, newText, m⟩])
    ∧ ∀ (fs : List V → V → Int → List (Int × ℚ)) (query : String)
        (topK : Int) (hit : SearchHit),
        hit ∈ (pySearch emb nrm fs
            (pyUpsert emb nrm st [⟨x, newText, m⟩]).state query topK).results →
        hit.id = x → hit.text = newText := by
  have hrows := pyUpsert_rows emb nrm st [⟨x, newText, m⟩] (by simp)
  have hpred : (fun (r : VecRow) =>
      !((([⟨x, newText, m⟩] : List VecRow).map (fun it => it.id)).contains r.id))
      = (fun (r : VecRow) => !(r.id == x)) := by
    funext r
    simp only [List.map_cons, List.map_nil]
    rw [contains_singleton_id]
  rw [hpred] at hrows
  have hsplit := length_filter_split st.rows (fun r => r.id == x)
  have hfilter : (pyUpsert emb nrm st [⟨x, newText, m⟩]).state.rows.filter
      (fun r => r.id == x) = [⟨x, newText, m⟩] := by
    rw [hrows, List.filter_append, List.filter_filter]
    have h1 : st.rows.filter (fun a => (a.id == x) && !(a.id == x)) = [] := by
      apply List.filter_eq_nil_iff.mpr
      intro a _
      simp
    rw [h1]
    simp [List.filter_cons]
  refine ⟨?_, hfilter, ?_⟩
  · rw [hrows, List.length_append]
    simp only [List.length_cons, List.length_nil]
    omega
  · intro fs query topK hit hmem hid
    obtain ⟨r, hr, hid2, htext⟩ := pySearch_hit_origin emb nrm fs _ query topK hit hmem
    have hrmem : r ∈ (pyUpsert emb nrm st [⟨x, newText, m⟩]).state.rows.filter
        (fun rr => rr.id == x) := by
      apply List.mem_filter.mpr
      refine ⟨hr, ?_⟩
      rw [← hid2, hid]
      exact beq_self_eq_true x
    rw [hfilter] at hrmem
    have : r = ⟨x, newText, m⟩ := by
      simpa using hrmem
    rw [htext, this]

theorem upsert_replace_by_id_witness :
    ((pyUpsert (fun t => t) (fun v => v) (emptyStore String)
        [⟨"x", "alpha", []⟩]).state.rows.filter
          (fun r => r.id == "x")).length = 1
    ∧ ((pyUpsert (fun t => t) (fun v => v)
          (pyUpsert (fun t => t) (fun v => v) (emptyStore String)
            [⟨"x", "alpha", []⟩]).state
          [⟨"x", "beta", []⟩]).state.rows.length
        = (pyUpsert (fun t => t) (fun v => v) (emptyStore String)
            [⟨"x", "alpha", []⟩]).state.rows.length)
    ∧ ((pyUpsert (fun t => t) (fun v => v)
          (pyUpsert (fun t => t) (fun v => v) (emptyStore String)
            [⟨"x", "alpha", []⟩]).state
          [⟨"x", "beta", []⟩]).state.rows.filter
            (fun r => r.id == "x") = [⟨"x", "beta", []⟩]) :=
  ⟨by decide,
    (upsert_replace_by_id (fun t => t) (fun v => v)
      (pyUpsert (fun t => t) (fun v => v) (emptyStore String)
        [⟨"x", "alpha", []⟩]).state "x" "beta" [] (by decide)).1,
    (upsert_replace_by_id (fun t => t) (fun v => v)
      (pyUpsert (fun t => t) (fun v => v) (emptyStore String)
        [⟨"x", "alpha", []⟩]).state "x" "beta" [] (by decide)).2.1⟩

theorem upsert_replace_count_counterexample :
    (pyUpsert (fun _ => ()) (fun v => v)
        (pyUpsert (fun _ => ()) (fun v => v) (emptyStore Unit)
          [⟨"x", "alpha", []⟩, ⟨"x", "alpha2", []⟩]).state
        [⟨"x", "beta", []⟩]).state.rows.length
      ≠ (pyUpsert (fun _ => ()) (fun v => v) (emptyStore Unit)
          [⟨"x", "alpha", []⟩, ⟨"x", "alpha2", []⟩]).state.rows.length := by
  decide

/-- C10 (amended): when a single upsert request contains two items with the
same id, no in-batch replacement happens — the resulting rows are the kept
rows followed by *all* request items, so the store ends up holding duplicate
ids; whenever none of the batch ids is already present, the total record count
grows by the number of items rather than the number of distinct ids.  The
original claim's unconditional "grows by the number of items" fails when a
batch id already exists in the store; see the counterexample. -/
theorem batch_duplicate_ids (emb : String → V) (nrm : V → V) (st : StoreState V)
    (items : List VecRow) (i j : Fin items.length) (hij : i ≠ j)
    (hid : (items.get i).id = (items.get j).id) :
    ((pyUpsert emb nrm st items).state.rows
      = st.rows.filter
          (fun r => !((items.map (fun it => it.id)).contains r.id)) ++ items)
    ∧ ¬ ((pyUpsert emb nrm st items).state.rows.map (fun r => r.id)).Nodup
    ∧ ((∀ r ∈ st.rows,
          ((items.map (fun it => it.id)).contains r.id) = false) →
        (pyUpsert emb nrm st items).state.rows.length
          = st.rows.length + items.length) := by
  have hne : items ≠ [] := by
    intro h
    subst h
    exact absurd i.isLt (by simp)
  have hrows := pyUpsert_rows emb nrm st items hne
  refine ⟨hrows, ?_, ?_⟩
  · rw [hrows, List.map_append]
    intro hnd
    have hmapnd : (items.map (fun it => it.id)).Nodup := hnd.of_append_right
    have hlen := (items.length_map (fun it => it.id)).symm
    have hgi : (items.map (fun it => it.id)).get (i.cast hlen)
        = (items.get i).id := by
      simp [List.get_map]
    have hgj : (items.map (fun it => it.id)).get (j.cast hlen)
        = (items.get j).id := by
      simp [List.get_map]
    have heq : (items.map (fun it => it.id)).get (i.cast hlen)
        = (items.map (fun it => it.id)).get (j.cast hlen) := by
      rw [hgi, hgj, hid]
    have hcast := (List.Nodup.get_inj_iff hmapnd).mp heq
    apply hij
    have hval := congrArg Fin.val hcast
    exact Fin.ext hval
  · intro hfresh
    rw [hrows, List.filter_eq_self.mpr (fun r hr => by rw [hfresh r hr]; rfl),
      List.length_append]

theorem batch_duplicate_ids_witness :
    ((pyUpsert (fun _ => ()) (fun v => v) (emptyStore Unit)
        [⟨"x", "a", []⟩, ⟨"x", "b", []⟩]).state.rows
      = (emptyStore Unit).rows.filter
          (fun r => !((([⟨"x", "a", []⟩, ⟨"x", "b", []⟩] : List VecRow).map
            (fun it => it.id)).contains r.id)) ++ [⟨"x", "a", []⟩, ⟨"x", "b", []⟩])
    ∧ ¬ ((pyUpsert (fun _ => ()) (fun v => v) (emptyStore Unit)
        [⟨"x", "a", []⟩, ⟨"x", "b", []⟩]).state.rows.map (fun r => r.id)).Nodup
    ∧ ((pyUpsert (fun _ => ()) (fun v => v) (emptyStore Unit)
          [⟨"x", "a", []⟩, ⟨"x", "b", []⟩]).state.rows.length
          = (emptyStore Unit).rows.length
            + ([⟨"x", "a", []⟩, ⟨"x", "b", []⟩] : List VecRow).length) :=
  ⟨(batch_duplicate_ids (fun _ => ()) (fun v => v) (emptyStore Unit)
      [⟨"x", "a", []⟩, ⟨"x", "b", []⟩] ⟨0, by decide⟩ ⟨1, by decide⟩
      (by decide) rfl).1,
    (batch_duplicate_ids (fun _ => ()) (fun v => v) (emptyStore Unit)
      [⟨"x", "a", []⟩, ⟨"x", "b", []⟩] ⟨0, by decide⟩ ⟨1, by decide⟩
      (by decide) rfl).2.1,
    (batch_duplicate_ids (fun _ => ()) (fun v => v) (emptyStore Unit)
      [⟨"x", "a", []⟩, ⟨"x", "b", []⟩] ⟨0, by decide⟩ ⟨1, by decide⟩
      (by decide) rfl).2.2 (by decide)⟩

theorem batch_duplicate_growth_counterexample :
    (pyUpsert (fun _ => ()) (fun v => v)
        (pyUpsert (fun _ => ()) (fun v => v) (emptyStore Unit)
          [⟨"x", "a", []⟩]).state
        [⟨"x", "b", []⟩, ⟨"x", "c", []⟩]).state.rows.length
      ≠ (pyUpsert (fun _ => ()) (fun v => v) (emptyStore Unit)
          [⟨"x", "a", []⟩]).state.rows.length
        + ([⟨"x", "b", []⟩, ⟨"x", "c", []⟩] : List VecRow).length := by
  decide

/-- C3 (amended): in every upsert call's event trace, the re-embedding of the
kept texts, the index replacement, the metadata drop, the vector append, the
metadata append and the persistence write all occur strictly between lock
acquisition and release — but the embedding of the *new* texts occurs before
the lock is acquired (the original claim places it under the lock; see the
counterexample). -/
theorem upsert_lock_scope (V : Type) (st : StoreState V) (items : List VecRow)
    (h : items ≠ []) :
    lockedEvt (upsertTrace st items) .embedKept = true
    ∧ lockedEvt (upsertTrace st items) .replaceIndex = true
    ∧ lockedEvt (upsertTrace st items) .dropRows = true
    ∧ lockedEvt (upsertTrace st items) .addVectors = true
    ∧ lockedEvt (upsertTrace st items) .appendRows = true
    ∧ lockedEvt (upsertTrace st items) .persist = true
    ∧ beforeLockEvt (upsertTrace st items) .embedNew = true := by
  unfold upsertTrace rebuildTrace
  rw [if_neg (by simp [h])]
  split
  · split
    · decide
    · decide
  · decide

theorem upsert_lock_scope_witness :
    lockedEvt (upsertTrace (emptyStore Unit) [⟨"x", "a", []⟩]) .embedKept = true
    ∧ lockedEvt (upsertTrace (emptyStore Unit) [⟨"x", "a", []⟩]) .replaceIndex = true
    ∧ lockedEvt (upsertTrace (emptyStore Unit) [⟨"x", "a", []⟩]) .dropRows = true
    ∧ lockedEvt (upsertTrace (emptyStore Unit) [⟨"x", "a", []⟩]) .addVectors = true
    ∧ lockedEvt (upsertTrace (emptyStore Unit) [⟨"x", "a", []⟩]) .appendRows = true
    ∧ lockedEvt (upsertTrace (emptyStore Unit) [⟨"x", "a", []⟩]) .persist = true
    ∧ beforeLockEvt (upsertTrace (emptyStore Unit) [⟨"x", "a", []⟩]) .embedNew = true :=
  upsert_lock_scope Unit (emptyStore Unit) [⟨"x", "a", []⟩] (by simp)

theorem upsert_embed_outside_lock :
    lockedEvt (upsertTrace (emptyStore Unit) [⟨"x", "a", []⟩]) .embedNew = false := by
  decide

/-- C8: on a ready store, the effective `top_k` of every search call is
clamped into `[1, 50]`, and a query that is empty after stripping whitespace
returns an empty result list without invoking the embedder and without
raising an error. -/
theorem search_preconditions (V : Type) (emb : String → V) (nrm : V → V)
    (fs : List V → V → Int → List (Int × ℚ)) (st : StoreState V)
    (query : String) (topK : Int) :
    (1 ≤ clampTopK topK ∧ clampTopK topK ≤ 50)
    ∧ (pyStrip query = "" → pySearch emb nrm fs st query topK = ⟨[], 0⟩) := by
  refine ⟨⟨le_max_left 1 _, max_le (by norm_num) (min_le_right _ _)⟩, ?_⟩
  intro hq
  unfold pySearch
  rw [if_pos hq]

theorem search_preconditions_witness :
    (1 ≤ clampTopK (-7) ∧ clampTopK (-7) ≤ 50)
    ∧ (pySearch (fun _ => (0 : Nat)) (fun v => v) (fun _ _ _ => [])
        (emptyStore Nat) "   " (-7) = ⟨[], 0⟩) :=
  ⟨(search_preconditions Nat (fun _ => (0 : Nat)) (fun v => v) (fun _ _ _ => [])
      (emptyStore Nat) "   " (-7)).1,
    (search_preconditions Nat (fun _ => (0 : Nat)) (fun v => v) (fun _ _ _ => [])
      (emptyStore Nat) "   " (-7)).2 (by decide)⟩

/-- C9 (amended): an upsert call before the embedder/index are initialised
fails with the service-not-ready error; a successful upsert with a non-empty
item list returns both the upserted count and the resulting total record
count; but an upsert with an empty items list returns only `{"upserted": 0}`
without the total record count (see the counterexample refuting the original
claim for the empty-list case). -/
theorem upsert_return_contract (emb : String → V) (nrm : V → V)
    (st : StoreState V) (items : List VecRow) :
    (pyUpsertEndpoint emb nrm (none : Option (StoreState V)) items
      = .error .serviceNotReady)
    ∧ (pyUpsertEndpoint emb nrm (some st) items = .ok (pyUpsert emb nrm st items))
    ∧ (items ≠ [] →
        (pyUpsert emb nrm st items).upserted = items.length
        ∧ (pyUpsert emb nrm st items).total
            = some (pyUpsert emb nrm st items).state.rows.length)
    ∧ (pyUpsert emb nrm st [] = ⟨st, 0, none⟩) := by
  refine ⟨rfl, rfl, ?_, rfl⟩
  intro h
  unfold pyUpsert
  rw [if_neg (by simp [h])]
  exact ⟨rfl, rfl⟩

theorem upsert_return_contract_witness :
    (pyUpsertEndpoint (fun _ => ()) (fun v => v)
        (none : Option (StoreState Unit)) [⟨"x", "a", []⟩]
      = .error .serviceNotReady)
    ∧ (pyUpsertEndpoint (fun _ => ()) (fun v => v) (some (emptyStore Unit))
        [⟨"x", "a", []⟩]
        = .ok (pyUpsert (fun _ => ()) (fun v => v) (emptyStore Unit)
            [⟨"x", "a", []⟩]))
    ∧ ((pyUpsert (fun _ => ()) (fun v => v) (emptyStore Unit)
          [⟨"x", "a", []⟩]).upserted
            = ([⟨"x", "a", []⟩] : List VecRow).length
        ∧ (pyUpsert (fun _ => ()) (fun v => v) (emptyStore Unit)
            [⟨"x", "a", []⟩]).total
            = some (pyUpsert (fun _ => ()) (fun v => v) (emptyStore Unit)
                [⟨"x", "a", []⟩]).state.rows.length)
    ∧ (pyUpsert (fun _ => ()) (fun v => v) (emptyStore Unit) []
        = ⟨emptyStore Unit, 0, none⟩) :=
  ⟨(upsert_return_contract (fun _ => ()) (fun v => v) (emptyStore Unit)
      [⟨"x", "a", []⟩]).1,
    (upsert_return_contract (fun _ => ()) (fun v => v) (emptyStore Unit)
      [⟨"x", "a", []⟩]).2.1,
    (upsert_return_contract (fun _ => ()) (fun v => v) (emptyStore Unit)
      [⟨"x", "a", []⟩]).2.2.1 (by simp),
    (upsert_return_contract (fun _ => ()) (fun v => v) (emptyStore Unit)
      [⟨"x", "a", []⟩]).2.2.2⟩

theorem empty_upsert_missing_total :
    (pyUpsert (fun _ => ()) (fun v => v) (emptyStore Unit) []).total = none := by
  decide

theorem snippetsFrom_length (rs : List RagResult) :
    ∀ i, (snippetsFrom i rs).length = rs.length := by
  induction rs with
  | nil => intro i; rfl
  | cons r rs ih => intro i; simp [snippetsFrom, ih]

theorem packSnippets_spec (limit : Int) (rs : List RagResult) :
    ∀ (i running : Nat), ((running : Int) ≤ limit) →
    ∃ k, packSnippets limit i running rs = (snippetsFrom i rs).take k
      ∧ ((running : Int) + (sumLens ((snippetsFrom i rs).take k) : Int) ≤ limit)
      ∧ (k < rs.length →
          ((running : Int) + (sumLens ((snippetsFrom i rs).take k) : Int)
            + (((snippetsFrom i rs).getD k "").length : Int) > limit)) := by
  induction rs with
  | nil =>
    intro i running h
    refine ⟨0, by simp [packSnippets, snippetsFrom], ?_, ?_⟩
    · simpa [snippetsFrom, sumLens] using h
    · intro hk
      exact absurd hk (by simp)
  | cons r rs ih =>
    intro i running h
    by_cases hov : ((running + (renderSnippet i r).length : Nat) : Int) > limit
    · refine ⟨0, ?_, ?_, ?_⟩
      · simp only [packSnippets]
        rw [if_pos hov]
        simp
      · simpa [sumLens] using h
      · intro _
        simp only [snippetsFrom, List.take_zero, sumLens, List.map_nil,
          List.sum_nil, List.getD_cons_zero]
        push_cast
        omega
    · have hle : ((running + (renderSnippet i r).length : Nat) : Int) ≤ limit :=
        le_of_not_lt hov
      obtain ⟨k, h1, h2, h3⟩ := ih (i + 1) (running + (renderSnippet i r).length) hle
      refine ⟨k + 1, ?_, ?_, ?_⟩
      · simp only [packSnippets]
        rw [if_neg hov, h1]
        simp [snippetsFrom]
      · simp only [snippetsFrom, List.take_succ_cons, sumLens, List.map_cons,
          List.sum_cons]
        simp only [sumLens] at h2
        push_cast at h2 ⊢
        omega
      · intro hk
        have hk2 : k < rs.length := by
          simpa using Nat.lt_of_succ_lt_succ hk
        have h4 := h3 hk2
        simp only [snippetsFrom, List.take_succ_cons, sumLens, List.map_cons,
          List.sum_cons, List.getD_cons_succ]
        simp only [sumLens] at h4
        push_cast at h4 ⊢
        omega

/-- C5 (amended): for every result list and every non-negative character
limit, the packing loop of `build_context_block` includes exactly a prefix of
the rendered snippets: the total character count of the included snippets never
exceeds the limit, and the first result whose snippet would push the running
count past the limit — together with every result after it — is excluded.  (The
full block additionally carries the fixed instruction line and newline
separators, which the running count does not include, so the block string
itself may exceed the limit by that fixed overhead; see the counterexample.) -/
theorem context_budget_packing (results : List RagResult) (limit : Int)
    (h : 0 ≤ limit) :
    ∃ k, packSnippets limit 1 0 results = (snippetsFrom 1 results).take k
      ∧ (buildContextBlock results limit).2
          = ((snippetsFrom 1 results).take k).length
      ∧ ((sumLens ((snippetsFrom 1 results).take k) : Int) ≤ limit)
      ∧ (k < results.length →
          ((sumLens ((snippetsFrom 1 results).take k) : Int)
            + (((snippetsFrom 1 results).getD k "").length : Int) > limit)) := by
  obtain ⟨k, h1, h2, h3⟩ := packSnippets_spec limit results 1 0 (by simpa using h)
  refine ⟨k, h1, ?_, by simpa using h2, fun hk => by simpa using h3 hk⟩
  cases results with
  | nil => simp [buildContextBlock, snippetsFrom]
  | cons r rs => simp [buildContextBlock, h1]

theorem context_budget_packing_witness :
    (0 : Int) ≤ 4000
    ∧ (∃ k, packSnippets 4000 1 0 [⟨some "hello", none, some 1⟩]
          = (snippetsFrom 1 [⟨some "hello", none, some 1⟩]).take k
        ∧ (buildContextBlock [⟨some "hello", none, some 1⟩] 4000).2
            = ((snippetsFrom 1 [⟨some "hello", none, some 1⟩]).take k).length
        ∧ ((sumLens ((snippetsFrom 1 [⟨some "hello", none, some 1⟩]).take k) : Int)
            ≤ 4000)
        ∧ (k < ([⟨some "hello", none, some 1⟩] : List RagResult).length →
            ((sumLens ((snippetsFrom 1
                  [⟨some "hello", none, some 1⟩]).take k) : Int)
              + (((snippetsFrom 1
                  [⟨some "hello", none, some 1⟩]).getD k "").length : Int)
              > 4000))) :=
  ⟨by norm_num,
    context_budget_packing [⟨some "hello", none, some 1⟩] 4000 (by norm_num)⟩

theorem context_block_exceeds_limit :
    ((buildContextBlock [⟨none, none, none⟩] 0).1.length : Int) > 0 := by
  decide

/-- C6: a result whose score (defaulting to 0 when absent) is below the
configured minimum similarity never appears among the results included in the
assembled context block, for any character limit: the score filter of
`retrieve_context` runs before the packing of `build_context_block`. -/
theorem threshold_filtering (minScore : ℚ) (results : List RagResult)
    (limit : Int) (r : RagResult)
    (hmem : r ∈ includedResults (filterByScore minScore results) limit) :
    minScore ≤ scoreD r := by
  have h2 : r ∈ filterByScore minScore results :=
    List.take_subset _ _ hmem
  exact of_decide_eq_true (List.mem_filter.mp h2).2

theorem threshold_filtering_witness :
    (⟨some "hello", none, some 2⟩ : RagResult)
        ∈ includedResults
            (filterByScore 1 [⟨some "hello", none, some 2⟩]) 4000
    ∧ (1 : ℚ) ≤ scoreD ⟨some "hello", none, some 2⟩ :=
  ⟨by decide,
    threshold_filtering 1 [⟨some "hello", none, some 2⟩] 4000
      ⟨some "hello", none, some 2⟩ (by decide)⟩

/-- C7: message splicing — an empty context block leaves the message sequence
unchanged; a non-empty block is wrapped in a system-role message (instruction
preamble plus block) and inserted immediately after an existing leading system
message, or prepended when the sequence does not start with one; the other
messages are untouched and keep their order. -/
theorem context_splicing (msgs : List ChatMsg) (block : String) :
    (block = "" → injectContextIntoMessages msgs block = msgs)
    ∧ (block ≠ "" → msgs = [] →
        injectContextIntoMessages msgs block = [ragSystemMsg block])
    ∧ (block ≠ "" → ∀ m0 rest, msgs = m0 :: rest → m0.role = "system" →
        injectContextIntoMessages msgs block = m0 :: ragSystemMsg block :: rest)
    ∧ (block ≠ "" → ∀ m0 rest, msgs = m0 :: rest → m0.role ≠ "system" →
        injectContextIntoMessages msgs block = ragSystemMsg block :: m0 :: rest)
    ∧ (ragSystemMsg block).role = "system"
    ∧ (ragSystemMsg block).content = ragPreamble ++ block := by
  refine ⟨?_, ?_, ?_, ?_, rfl, rfl⟩
  · intro h
    simp [injectContextIntoMessages, h]
  · intro h hm
    subst hm
    simp [injectContextIntoMessages, h]
  · intro h m0 rest hm hrole
    subst hm
    simp [injectContextIntoMessages, h, hrole]
  · intro h m0 rest hm hrole
    subst hm
    simp [injectContextIntoMessages, h, hrole]

theorem context_splicing_witness :
    injectContextIntoMessages [⟨"user", "hi"⟩] "" = [⟨"user", "hi"⟩] :=
  (context_splicing [⟨"user", "hi"⟩] "").1 rfl

theorem rawChunksGo_texts (hash : String → String) (d s : String) :
    ∀ (idx : Nat) (ps : List String),
      (rawChunksGo hash d s idx ps).map (fun c => c.text)
        = (ps.map cleanText).filter (fun t => validChunkB t) := by
  intro idx ps
  induction ps generalizing idx with
  | nil => rfl
  | cons p ps ih =>
    simp only [rawChunksGo, List.map_cons, List.filter_cons]
    cases h : validChunkB (cleanText p) with
    | true => simp [h, ih]
    | false => simp [h, ih]

theorem rawChunksGo_hash (hash : String → String) (d s : String) :
    ∀ (idx : Nat) (ps : List String),
      ∀ c ∈ rawChunksGo hash d s idx ps, c.rowHash = hash c.text := by
  intro idx ps
  induction ps generalizing idx with
  | nil => intro c hc; simp [rawChunksGo] at hc
  | cons p ps ih =>
    intro c hc
    simp only [rawChunksGo] at hc
    by_cases h : validChunkB (cleanText p) = true
    · rw [if_pos h] at hc
      rcases List.mem_cons.mp hc with h2 | h2
      · subst h2; rfl
      · exact ih (idx + 1) c h2
    · rw [if_neg h] at hc
      exact ih (idx + 1) c hc

theorem contains_cons_str (a x : String) (s : List String) :
    ((x :: s).contains a) = ((a == x) || s.contains a) := by
  cases h : a == x
  · simp_all [List.contains_cons]
  · simp_all [List.contains_cons]

theorem beq_hash_inj (hash : String → String) (hinj : Function.Injective hash)
    (t u : String) : (hash t == hash u) = (t == u) := by
  cases h : t == u
  · have hne : t ≠ u := by simpa using h
    have : hash t ≠ hash u := fun hh => hne (hinj hh)
    simpa using this
  · have heq : t = u := by simpa using h
    subst heq
    simp

theorem nubFirst_cons (t : String) (ts : List String) :
    nubFirst (t :: ts) = t :: nubFirst (ts.filter (fun u => !(u == t))) := by
  rw [nubFirst]

theorem dedupeGo_texts (hash : String → String) (hinj : Function.Injective hash)
    (cs : List Chunk) :
    ∀ (seen : List String), (∀ c ∈ cs, c.rowHash = hash c.text) →
      (dedupeGo seen cs).map (fun c => c.text)
        = nubFirst ((cs.map (fun c => c.text)).filter
            (fun t => !(seen.contains (hash t)))) := by
  induction cs with
  | nil =>
    intro seen _
    simp [dedupeGo, nubFirst]
  | cons c cs ih =>
    intro seen hcoh
    have hc := hcoh c (List.mem_cons_self c cs)
    have hrest : ∀ c2 ∈ cs, c2.rowHash = hash c2.text :=
      fun c2 h2 => hcoh c2 (List.mem_cons_of_mem c h2)
    simp only [dedupeGo, List.map_cons, List.filter_cons]
    cases hmem : seen.contains c.rowHash with
    | true =>
      have hx : (seen.contains (hash c.text)) = true := by rw [← hc]; exact hmem
      simp only [hx, Bool.not_true, Bool.false_eq_true, if_false, if_pos rfl]
      exact ih seen hrest
    | false =>
      have hx : (seen.contains (hash c.text)) = false := by rw [← hc]; exact hmem
      simp only [hx, Bool.not_false, if_true, Bool.false_eq_true, if_false,
        List.map_cons]
      rw [ih (c.rowHash :: seen) hrest, nubFirst_cons]
      congr 1
      congr 1
      rw [List.filter_filter]
      apply List.filter_congr
      intro t _
      rw [contains_cons_str, hc, beq_hash_inj hash hinj]
      cases h1 : t == c.text <;> cases h2 : seen.contains (hash t) <;>
        simp [h1, h2]

/-- C4 (amended): deduplication is per document.  Within one document,
`make_chunks` keeps, for every distinct cleaned valid page text, exactly the
first page carrying it (first-occurrence content-hash dedup, assuming the hash
is collision-free); the ingestion run merges the per-document chunk lists
as-is, with no cross-document dedup pass, so identical cleaned texts in
different documents each survive and are upserted (see the counterexample). -/
theorem dedup_per_document (hash : String → String)
    (hinj : Function.Injective hash) (docId srcUri : String)
    (pages : List String) :
    ((makeChunks hash docId srcUri pages).map (fun c => c.text)
      = nubFirst ((pages.map cleanText).filter (fun t => validChunkB t)))
    ∧ (∀ docs : List (String × String × List String),
        ingestAllChunks hash docs
          = (docs.map (fun d => makeChunks hash d.1 d.2.1 d.2.2)).flatten) := by
  refine ⟨?_, fun docs => rfl⟩
  unfold makeChunks rawChunks
  rw [dedupeGo_texts hash hinj _ [] (rawChunksGo_hash hash docId srcUri 1 pages)]
  simp only [List.contains_nil, Bool.not_false, List.filter_true]
  rw [rawChunksGo_texts]

theorem dedup_per_document_witness :
    Function.Injective (fun s : String => s)
    ∧ ((makeChunks (fun s => s) "doc1" "file_a"
          ["Statement of Account", "Statement of Account"]).map (fun c => c.text)
        = nubFirst (((["Statement of Account", "Statement of Account"]
            : List String).map cleanText).filter (fun t => validChunkB t))) :=
  ⟨fun _ _ h => h,
    (dedup_per_document (fun s => s) (fun _ _ h => h) "doc1" "file_a"
      ["Statement of Account", "Statement of Account"]).1⟩

theorem crossdoc_dedup_counterexample :
    (ingestAllChunks (fun s => s)
        [("doc1", "file_a", ["Statement of Account"]),
         ("doc2", "file_b", ["Statement of Account"])]).map (fun c => c.text)
      = ["Statement of Account", "Statement of Account"] := by
  decide
